import Mathlib

/-- JSON values as decoded by `json.loads`: the dynamic record type the pipeline
operates on.  Numbers are modelled as integers (no claim depends on float
formatting); object fields are an ordered association list, mirroring Python's
insertion-ordered `dict` (keys are unique in any value produced by `json.loads`). -/
inductive JVal where
  | null : JVal
  | bool : Bool → JVal
  | num : Int → JVal
  | str : String → JVal
  | arr : List JVal → JVal
  | obj : List (String × JVal) → JVal

/-- First-match association-list lookup: Python `dict[k]` / `dict.get(k)` on the
(unique-keyed) field list of an object. -/
def lookupField : List (String × JVal) → String → Option JVal
  | [], _ => none
  | (k, v) :: fs, key => if k = key then some v else lookupField fs key

/-- Python `obj.get(key)`: field lookup on an object value, `none` otherwise. -/
def objGet (o : JVal) (key : String) : Option JVal :=
  match o with
  | .obj fs => lookupField fs key
  | _ => none

mutual
/-- Python `repr` of a JSON-decoded value (used by `str` on containers).
String escaping inside `repr` is elided: no claim depends on it. -/
def pyRepr : JVal → String
  | .null => "None"
  | .bool true => "True"
  | .bool false => "False"
  | .num n => toString n
  | .str s => String.singleton (Char.ofNat 39) ++ s ++ String.singleton (Char.ofNat 39)
  | .arr xs => "[" ++ String.intercalate ", " (pyReprList xs) ++ "]"
  | .obj fs => "\x7b" ++ String.intercalate ", " (pyReprFields fs) ++ "\x7d"
def pyReprList : List JVal → List String
  | [] => []
  | x :: xs => pyRepr x :: pyReprList xs
def pyReprFields : List (String × JVal) → List String
  | [] => []
  | (k, v) :: fs =>
      (String.singleton (Char.ofNat 39) ++ k ++ String.singleton (Char.ofNat 39) ++ ": " ++ pyRepr v)
        :: pyReprFields fs
end

/-- Python `str` of a JSON-decoded value (`str(g)` in `group_split_jsonl.py`,
`str(d.get("error") or "")` in `retrain_trigger.py`). -/
def pyStr : JVal → String
  | .str s => s
  | v => pyRepr v

/-- Python `str.strip()`: remove leading and trailing whitespace. -/
def pyStrip (s : String) : String :=
  String.mk (((s.data.dropWhile Char.isWhitespace).reverse.dropWhile Char.isWhitespace).reverse)

/-- Hex digit for `\uXXXX` escapes. -/
def hexDigit (n : Nat) : Char :=
  if n < 10 then Char.ofNat (48 + n) else Char.ofNat (87 + n)

/-- JSON string escaping as performed by `json.dumps(..., ensure_ascii=False)`. -/
def jsonEscapeChar (c : Char) : String :=
  if c = Char.ofNat 34 then "\\\""
  else if c = Char.ofNat 92 then "\\\\"
  else if c = Char.ofNat 10 then "\\n"
  else if c = Char.ofNat 9 then "\\t"
  else if c = Char.ofNat 13 then "\\r"
  else if c = Char.ofNat 8 then "\\b"
  else if c = Char.ofNat 12 then "\\f"
  else if c.toNat < 32 then
    "\\u00" ++ String.singleton (hexDigit (c.toNat / 16)) ++ String.singleton (hexDigit (c.toNat % 16))
  else String.singleton c

/-- A JSON string literal: quote and escape. -/
def jsonQuote (s : String) : String :=
  "\"" ++ String.join (s.data.map jsonEscapeChar) ++ "\""

mutual
/-- Serialization `json.dumps(obj, ensure_ascii=False)` with the default separators
`", "` and `": "`, emitting object fields in their stored order. -/
def dumps : JVal → String
  | .null => "null"
  | .bool true => "true"
  | .bool false => "false"
  | .num n => toString n
  | .str s => jsonQuote s
  | .arr xs => "[" ++ String.intercalate ", " (dumpsList xs) ++ "]"
  | .obj fs => "\x7b" ++ String.intercalate ", " (dumpsFields fs) ++ "\x7d"
def dumpsList : List JVal → List String
  | [] => []
  | x :: xs => dumps x :: dumpsList xs
def dumpsFields : List (String × JVal) → List String
  | [] => []
  | (k, v) :: fs => (jsonQuote k ++ ": " ++ dumps v) :: dumpsFields fs
end

/-- Lexicographic comparison of character lists by code point: Python's
string ordering, as used by `sorted` on dict keys. -/
def lexLe : List Char → List Char → Bool
  | [], _ => true
  | _ :: _, [] => false
  | a :: as, b :: bs =>
    if a.toNat < b.toNat then true
    else if b.toNat < a.toNat then false
    else lexLe as bs

/-- Key ordering on object fields: compare by field name (`sorted` on dict
items compares keys first; keys are unique, so only keys matter). -/
def keyLE (p q : String × JVal) : Prop := lexLe p.1.data q.1.data = true

instance : DecidableRel keyLE := fun p q => inferInstanceAs (Decidable (lexLe p.1.data q.1.data = true))

mutual
/-- Recursively sort every object's fields by key.  `json.dumps(x, sort_keys=True)`
(the canonical serialization in `dedupe_jsonl.h`) equals `dumps (sortNorm x)`:
`sort_keys` only reorders the fields at each object node. -/
def sortNorm : JVal → JVal
  | .null => .null
  | .bool b => .bool b
  | .num n => .num n
  | .str s => .str s
  | .arr xs => .arr (sortNormList xs)
  | .obj fs => .obj (List.insertionSort keyLE (sortNormFields fs))
def sortNormList : List JVal → List JVal
  | [] => []
  | x :: xs => sortNorm x :: sortNormList xs
def sortNormFields : List (String × JVal) → List (String × JVal)
  | [] => []
  | (k, v) :: fs => (k, sortNorm v) :: sortNormFields fs
end

/-- Digest `h(obj)` from `dedupe_jsonl.py`: the canonical digest
`sha256(json.dumps(obj, sort_keys=True, ensure_ascii=False))`.  The SHA-256 layer
is an external library injection whose collisions the spec explicitly treats as
true duplicates, so the digest is modelled as the canonical serialization itself. -/
def h (o : JVal) : String := dumps (sortNorm o)

/-- Lookup `get_path(obj, path)`: walk a dot-separated field path, `None` when any
step is missing or the current value is not an object. -/
def walkPath : List String → JVal → Option JVal
  | [], cur => some cur
  | p :: ps, cur =>
    match cur with
    | .obj fs =>
      match lookupField fs p with
      | some v => walkPath ps v
      | none => none
    | _ => none

/-- Python `path.split(".")` for the single-character separator `"."`. -/
def splitDotChars : List Char → List (List Char)
  | [] => [[]]
  | c :: cs =>
    if c = Char.ofNat 46 then [] :: splitDotChars cs
    else
      match splitDotChars cs with
      | [] => [[c]]
      | g :: gs => (c :: g) :: gs

def splitDot (s : String) : List String := (splitDotChars s.data).map String.mk

def get_path (o : JVal) (path : String) : Option JVal :=
  walkPath (splitDot path) o

/-! Deduplicator (`dedupe_jsonl.py`)

The input stream is modelled post-`json.loads`: one entry per non-blank line,
`some obj` for a parseable line and `none` for a malformed one (both are
skipped without producing output).  The `seen` set of digests is an explicit
list, and the output is the list of records written (each is re-serialized
with `json.dumps` by the script; records are compared as values here). -/

def dedupeGo : List (Option JVal) → List String → List JVal
  | [], _ => []
  | none :: rest, seen => dedupeGo rest seen
  | some o :: rest, seen =>
    if h o ∈ seen then dedupeGo rest seen
    else o :: dedupeGo rest (h o :: seen)

def dedupe (input : List (Option JVal)) : List JVal := dedupeGo input []

/-! Schema validator (`validate_jsonl.py`), conversational mode -/

/-- The per-message loop of `validate_chat`: entry must be an object, its role in
the fixed role set, its content a string that is non-empty after `strip()`. -/
def check_messages : List JVal → Nat → Option String
  | [], _ => none
  | m :: rest, i =>
    match m with
    | .obj fs =>
      match lookupField fs "role" with
      | some (.str r) =>
        if r = "system" ∨ r = "user" ∨ r = "assistant" ∨ r = "tool" then
          match lookupField fs "content" with
          | some (.str c) =>
            if pyStrip c = "" then some ("message[" ++ toString i ++ "] missing content")
            else check_messages rest (i + 1)
          | _ => some ("message[" ++ toString i ++ "] missing content")
        else some ("message[" ++ toString i ++ "] invalid role")
      | _ => some ("message[" ++ toString i ++ "] invalid role")
    | _ => some ("message[" ++ toString i ++ "] not object")

/-- Does some message's `role` field equal the given string
(`any(m.get("role")==r for m in msgs)`; a non-string or missing role
compares unequal)? -/
def hasRole (msgs : List JVal) (r : String) : Bool :=
  msgs.any fun m =>
    match objGet m "role" with
    | some (.str s) => s == r
    | _ => false

/-- Predicate `validate_chat(obj)` from `validate_jsonl.py`, applied to a decoded record. -/
def validate_chat (o : JVal) : Bool × Option String :=
  match objGet o "messages" with
  | some (.arr msgs) =>
    if msgs.length < 2 then (false, some "missing/invalid messages")
    else
      match check_messages msgs 0 with
      | some reason => (false, some reason)
      | none =>
        if hasRole msgs "user" && hasRole msgs "assistant" then (true, none)
        else (false, some "need at least one user and one assistant message")
  | _ => (false, some "missing/invalid messages")

/-! Splitters (`group_split_jsonl.py`, `split_jsonl.py`)

`random.Random(seed).shuffle(keys)` is an external PRNG whose only contract is
that it permutes the list deterministically for a fixed seed; it is modelled as
an explicit `shuffle` function parameter, constrained to be a permutation in
the theorems.  Python `int()` truncation and Python slice semantics (negative
indices count from the end) are modelled exactly. -/

/-- Python `int()` on a rational: truncation toward zero. -/
def pyInt (q : ℚ) : Int := if q < 0 then ⌈q⌉ else ⌊q⌋

/-- Normalize a Python slice endpoint for a list of length `len`:
negative indices count from the end; results clamp to `[0, len]`. -/
def pyNorm (len : Nat) (i : Int) : Nat :=
  if i < 0 then (len + i).toNat else min i.toNat len

/-- Python `l[:b]`. -/
def pySliceTo (l : List α) (b : Int) : List α := l.take (pyNorm l.length b)

/-- Python `l[a:]`. -/
def pySliceFrom (l : List α) (a : Int) : List α := l.drop (pyNorm l.length a)

/-- Python `l[a:b]`. -/
def pySlice (l : List α) (a b : Int) : List α :=
  (l.take (pyNorm l.length b)).drop (pyNorm l.length a)

/-- The record's group key: `str(g)` for a resolved path, else the sentinel. -/
def keyOfRecord (group_key : String) (o : JVal) : String :=
  match get_path o group_key with
  | none => "__MISSING__"
  | some g => pyStr g

/-- Update `groups[k].append(line)` on a `defaultdict(list)`: append to the bucket of
`k` (buckets keep insertion order, as Python dicts do). -/
def addGroup (gs : List (String × List JVal)) (k : String) (v : JVal) :
    List (String × List JVal) :=
  match gs with
  | [] => [(k, [v])]
  | (k', vs) :: rest =>
    if k' = k then (k', vs ++ [v]) :: rest else (k', vs) :: addGroup rest k v

/-- The record-reading loop of `group_split_jsonl.main`: fold each parseable
record into the group map. -/
def buildGroups (group_key : String) : List JVal → List (String × List JVal) →
    List (String × List JVal)
  | [], gs => gs
  | r :: rest, gs => buildGroups group_key rest (addGroup gs (keyOfRecord group_key r) r)

/-- Bucket lookup in the group map (empty for an absent key). -/
def lookupG (gs : List (String × List JVal)) (k : String) : List JVal :=
  match gs with
  | [] => []
  | (k', vs) :: rest => if k' = k then vs else lookupG rest k

/-- `flatten(klist)`: concatenate the buckets of the listed keys in order. -/
def flattenG (gs : List (String × List JVal)) (klist : List String) : List JVal :=
  klist.flatMap (lookupG gs)

/-- The distinct group keys of the input, in first-appearance order
(`list(groups.keys())`). -/
def groupKeysOf (group_key : String) (input : List (Option JVal)) : List String :=
  (buildGroups group_key (input.filterMap id) []).map Prod.fst

/-- The allocation/emission phase of `group_split_jsonl.main` after the
fraction check: group records, shuffle the key list, truncate it with Python
slices at `int(total*train)` and `int(total*train)+int(total*val)`, and emit
each partition's member records. -/
def group_split_core (shuffle : Int → List String → List String) (group_key : String)
    (seed : Int) (train val : ℚ) (input : List (Option JVal)) :
    List JVal × List JVal × List JVal :=
  let parsed := input.filterMap id
  let groups := buildGroups group_key parsed []
  let keys := shuffle seed (groups.map Prod.fst)
  let total := keys.length
  let n_train := pyInt ((total : ℚ) * train)
  let n_val := pyInt ((total : ℚ) * val)
  let train_keys := pySliceTo keys n_train
  let val_keys := pySlice keys n_train (n_train + n_val)
  let test_keys := pySliceFrom keys (n_train + n_val)
  (flattenG groups train_keys, flattenG groups val_keys, flattenG groups test_keys)

/-- Main routine `group_split_jsonl.main`: fatal configuration error when the fractions do
not sum to 1 within `1e-9`, before any input or output I/O; otherwise the
three partitions (as written to `train.jsonl`, `val.jsonl`, `test.jsonl`). -/
def group_split_main (shuffle : Int → List String → List String) (group_key : String)
    (seed : Int) (train val test : ℚ) (input : List (Option JVal)) :
    Except String (List JVal × List JVal × List JVal) :=
  if 1 / 1000000000 < |train + val + test - 1| then
    Except.error "train+val+test must sum to 1.0"
  else
    Except.ok (group_split_core shuffle group_key seed train val input)

/-- Main routine `split_jsonl.main` (the row-wise splitter): same fatal fraction check, then
keep non-blank lines, shuffle them, and truncate with the same slices. -/
def split_main (shuffle : Int → List String → List String) (seed : Int)
    (train val test : ℚ) (input : List String) :
    Except String (List String × List String × List String) :=
  if 1 / 1000000000 < |train + val + test - 1| then
    Except.error "train+val+test must sum to 1.0"
  else
    let lines := shuffle seed (input.filter fun ln => !(pyStrip ln == ""))
    let n := lines.length
    let n_train := pyInt ((n : ℚ) * train)
    let n_val := pyInt ((n : ℚ) * val)
    Except.ok (pySliceTo lines n_train, pySlice lines n_train (n_train + n_val),
      pySliceFrom lines (n_train + n_val))

/-! Corpus statistics engine (`stats_report.py`) -/

/-- The two record formats accepted by `--mode`. -/
inductive Mode where
  | chat : Mode
  | instruction : Mode

/-- Length `msg_text_len(m)`: length of the `content` string, `0` for a non-string. -/
def msg_text_len (m : JVal) : Nat :=
  match objGet m "content" with
  | some (.str c) => c.length
  | _ => 0

/-- The per-record scalar length: sum of message content lengths over the
dict-shaped entries of `messages` (chat), or the summed `str()` lengths of the
three instructional fields (with `""` for a missing field). -/
def recordLength (mode : Mode) (o : JVal) : Nat :=
  match mode with
  | .chat =>
    let msgs := match objGet o "messages" with
      | some (.arr xs) => xs
      | _ => []
    (msgs.filter fun m => match m with | .obj _ => true | _ => false).foldl
      (fun acc m => acc + msg_text_len m) 0
  | .instruction =>
    (["instruction", "input", "output"].map fun k =>
      (match objGet o k with
       | some v => pyStr v
       | none => "").length).sum

/-- Python `statistics.median` on a list of naturals viewed as rationals. -/
def median (data : List Nat) : ℚ :=
  let s := List.insertionSort (fun a b : Nat => a ≤ b) data
  let n := s.length
  if n % 2 = 1 then (s.getD (n / 2) 0 : ℚ)
  else ((s.getD (n / 2 - 1) 0 : ℚ) + (s.getD (n / 2) 0 : ℚ)) / 2

/-- Python `statistics.quantiles(data, n=10)[8]` (the default exclusive method):
the interpolated 90th percentile of the sorted data. -/
def quantile90 (data : List Nat) : ℚ :=
  let s := List.insertionSort (fun a b : Nat => a ≤ b) data
  let ld := s.length
  let m := ld + 1
  let j0 := 9 * m / 10
  let j := if j0 < 1 then 1 else if j0 > ld - 1 then ld - 1 else j0
  let delta : Int := 9 * m - j * 10
  ((s.getD (j - 1) 0 : ℚ) * ((10 : ℚ) - (delta : ℚ)) + (s.getD j 0 : ℚ) * (delta : ℚ)) / 10

/-- The length-statistics block of the report. -/
structure LengthStats where
  min : ℚ
  p50 : ℚ
  p90 : ℚ
  max : ℚ
  mean : ℚ
deriving DecidableEq

/-- The label-imbalance block of the report. -/
structure LabelStats where
  label_path : String
  missing : Nat
  counts : List (String × Nat)
deriving DecidableEq

/-- The JSON report written by `stats_report.py`. -/
structure StatsReport where
  count : Nat
  length_chars : LengthStats
  labels : Option LabelStats
deriving DecidableEq

/-- Update `label_counts[key] = label_counts.get(key, 0) + 1` on an insertion-ordered dict. -/
def bumpCount : List (String × Nat) → String → List (String × Nat)
  | [], k => [(k, 1)]
  | (k', c) :: rest, k =>
    if k' = k then (k', c + 1) :: rest else (k', c) :: bumpCount rest k

/-- The label-tallying loop: count records whose label path is unresolved as
missing, tally `str(label)` otherwise. -/
def tallyLabels (label_path : String) : List JVal → Nat × List (String × Nat) →
    Nat × List (String × Nat)
  | [], acc => acc
  | o :: rest, (miss, counts) =>
    match get_path o label_path with
    | none => tallyLabels label_path rest (miss + 1, counts)
    | some lab => tallyLabels label_path rest (miss, bumpCount counts (pyStr lab))

/-- Python `dict(sorted(label_counts.items(), key=lambda kv: kv[1], reverse=True))`:
stable sort of the tally, descending by count. -/
def sortCounts (counts : List (String × Nat)) : List (String × Nat) :=
  List.insertionSort (fun a b : String × Nat => b.2 ≤ a.2) counts

/-- Main routine `stats_report.main` on the decoded input stream (`none` entries are the
skipped malformed lines): the report that is written to `--out`. -/
def stats_report (mode : Mode) (label_path : Option String)
    (input : List (Option JVal)) : StatsReport :=
  let parsed := input.filterMap id
  let lengths := parsed.map (recordLength mode)
  { count := parsed.length
    length_chars :=
      { min := match lengths with
          | [] => 0
          | x :: xs => ((xs.foldl Nat.min x : Nat) : ℚ)
        p50 := if lengths.isEmpty then 0 else median lengths
        p90 := if 10 ≤ lengths.length then quantile90 lengths
          else match lengths with
            | [] => 0
            | x :: xs => ((xs.foldl Nat.max x : Nat) : ℚ)
        max := match lengths with
          | [] => 0
          | x :: xs => ((xs.foldl Nat.max x : Nat) : ℚ)
        mean := if lengths.isEmpty then 0
          else (lengths.sum : ℚ) / (lengths.length : ℚ) }
    labels := label_path.map fun p =>
      let t := tallyLabels p parsed (0, [])
      { label_path := p, missing := t.1, counts := sortCounts t.2 } }

/-! Retrain policy engine (`retrain_trigger.py`) -/

/-- One entry of the evaluation summary's `details` array.  Absent fields are
`none`; present fields hold arbitrary JSON. -/
structure Detail where
  ok : Option JVal
  name : Option JVal
  suite : Option JVal
  status : Option JVal
  error : Option JVal

/-- The decoded evaluation summary (`results.json`).  `passRate` and
`repairedRate` are numeric when present; `taxonomy` maps category names to
integer counts. -/
structure EvalSummary where
  passRate : Option ℚ
  repairedRate : Option ℚ
  taxonomy : Option (List (String × Int))
  details : List Detail

/-- Lookup `taxonomy.get(cat, 0)`. -/
def taxGet (tx : List (String × Int)) (cat : String) : Int :=
  match tx with
  | [] => 0
  | (k, c) :: rest => if k = cat then c else taxGet rest cat

/-- The `need` list of violated-threshold reasons, built in source order.
Missing summary fields read as `0` (`r.get` with default `0`, and `taxonomy or` an empty dict). -/
def needReasons (r : EvalSummary) (min_pass max_repair : ℚ) : List String :=
  let pass_rate := r.passRate.getD 0
  let repair_rate := r.repairedRate.getD 0
  let tx := r.taxonomy.getD []
  let schema_bad := taxGet tx "SCHEMA"
  let parse_bad := taxGet tx "JSON_PARSE"
  (if pass_rate < min_pass then ["passRate<min_pass"] else []) ++
  (if max_repair < repair_rate then ["repairedRate>max_repair"] else []) ++
  (if 0 < schema_bad then ["SCHEMA>0"] else []) ++
  (if 0 < parse_bad then ["JSON_PARSE>0"] else [])

/-- The retrain decision: triggered iff the `need` list is non-empty. -/
def retrainTriggered (r : EvalSummary) (min_pass max_repair : ℚ) : Bool :=
  !(needReasons r min_pass max_repair).isEmpty

/-- Python `str(x)` for an optional JSON value: Python renders an absent value
(`d.get(...)` = `None`) as `"None"` inside an f-string. -/
def pyStrOpt (x : Option JVal) : String :=
  match x with
  | none => "None"
  | some v => pyStr v

/-- Python truthiness of a JSON value (`x or ''`). -/
def pyTruthy : JVal → Bool
  | .null => false
  | .bool b => b
  | .num n => n != 0
  | .str s => !(s == "")
  | .arr xs => !xs.isEmpty
  | .obj fs => !fs.isEmpty

/-- Text `str(d.get("error") or "")`: the assistant-turn text echoing the failure. -/
def errText (d : Detail) : String :=
  match d.error with
  | none => ""
  | some e => if pyTruthy e then pyStr e else ""

/-- An optional JSON value as serialized into the harvested row's `meta`
(`None` serializes as `null`). -/
def optJ (x : Option JVal) : JVal :=
  match x with
  | none => .null
  | some v => v

/-- The fixed schema-valid fallback payload of the remediation template's last
assistant turn. -/
def fallbackPayload : JVal :=
  .obj [("title", .str "Fallback report"),
        ("summary", .str "Schema-safe fallback because the previous attempt failed."),
        ("bullets", .arr [.str "Add targeted training examples for this failure",
                          .str "Run evals after training",
                          .str "Keep tool grounding strict"]),
        ("actions", .arr [.str "Harvest failures into JSONL",
                          .str "Fine-tune with QLoRA SFT",
                          .str "Re-run edge-case suites"]),
        ("cautions", .arr [.str "Do not output non-JSON",
                           .str "Do not fabricate facts"]),
        ("citations", .arr [])]

/-- The harvested conversational row for one failing detail entry: the fixed
5-turn remediation template plus metadata.  `ts` is the wall-clock timestamp
(`datetime.utcnow`), passed in as a parameter. -/
def harvestRow (d : Detail) (ts : String) : JVal :=
  .obj [("messages", .arr
    [.obj [("role", .str "system"),
           ("content", .str "You MUST output valid JSON matching the report schema and nothing else.")],
     .obj [("role", .str "user"),
           ("content", .str ("Produce a schema-valid report for test: " ++ pyStrOpt d.name))],
     .obj [("role", .str "assistant"), ("content", .str (errText d))],
     .obj [("role", .str "user"),
           ("content", .str "Fix it. Return JSON only. Include all required keys, even if citations is empty.")],
     .obj [("role", .str "assistant"), ("content", .str (dumps fallbackPayload))]]),
   ("meta", .obj [("suite", optJ d.suite), ("name", optJ d.name),
                  ("status", optJ d.status), ("ts", .str ts)])]

/-- The detail entries harvested: those whose `ok` field is not literally
`True` (the script skips entries whose `ok` is the literal `True`). -/
def failingDetails (r : EvalSummary) : List Detail :=
  r.details.filter fun d =>
    match d.ok with
    | some (.bool true) => false
    | _ => true

/-- The lines appended to the harvest file when retraining is triggered: one
`json.dumps` line per failing detail entry, in order. -/
def harvestLines (r : EvalSummary) (ts : String) : List String :=
  (failingDetails r).map fun d => dumps (harvestRow d ts)

/-- The effect of one `retrain_trigger.main` run on the harvest file's
contents (`old`): the file is opened in append mode and gains one line per
failing detail entry when the policy triggers and `--out` is given; it is
untouched otherwise. -/
def retrain_run (r : EvalSummary) (min_pass max_repair : ℚ) (out_given : Bool)
    (ts : String) (old : List String) : List String :=
  if (needReasons r min_pass max_repair).isEmpty then old
  else if out_given then old ++ harvestLines r ts
  else old

/-! Structural equality of JSON records (claim C4)

Two decoded records are *structurally equal* when they have the same keys
mapped to the same values at every object node, regardless of the order in
which the object keys originally appeared.  `StructEq` is the congruence
generated by reordering (distinct-keyed) object fields: scalar reflexivity,
pointwise equality of arrays, field-wise congruence of objects, adjacent
transposition of two fields with different keys, and transitivity.  (Records
produced by `json.loads` never carry duplicate keys, so distinct-key
transpositions generate every reordering of a record's fields.) -/
inductive StructEq : JVal → JVal → Prop where
  | null : StructEq .null .null
  | bool (b : Bool) : StructEq (.bool b) (.bool b)
  | num (n : Int) : StructEq (.num n) (.num n)
  | str (s : String) : StructEq (.str s) (.str s)
  | arrNil : StructEq (.arr []) (.arr [])
  | arrCons {x y : JVal} {xs ys : List JVal} : StructEq x y →
      StructEq (.arr xs) (.arr ys) → StructEq (.arr (x :: xs)) (.arr (y :: ys))
  | objNil : StructEq (.obj []) (.obj [])
  | objCons {k : String} {v w : JVal} {fs gs : List (String × JVal)} :
      StructEq v w → StructEq (.obj fs) (.obj gs) →
      StructEq (.obj ((k, v) :: fs)) (.obj ((k, w) :: gs))
  | objSwap {k k' : String} {v w : JVal} {fs : List (String × JVal)} :
      k ≠ k' → StructEq (.obj ((k, v) :: (k', w) :: fs)) (.obj ((k', w) :: (k, v) :: fs))
  | trans {a b c : JVal} : StructEq a b → StructEq b c → StructEq a c

/-! Basic lemmas -/

lemma pyStrip_eq_empty_iff (s : String) :
    pyStrip s = "" ↔ ∀ c ∈ s.data, c.isWhitespace := by
  unfold pyStrip
  constructor
  · intro hs c hc
    have hnil :
        ((s.data.dropWhile Char.isWhitespace).reverse.dropWhile Char.isWhitespace).reverse
          = [] := by
      have := congrArg String.data hs
      simpa using this
    have hall : ∀ x ∈ (s.data.dropWhile Char.isWhitespace).reverse, x.isWhitespace := by
      intro x hx
      have h1 : (s.data.dropWhile Char.isWhitespace).reverse.dropWhile Char.isWhitespace = [] := by
        have := congrArg List.reverse hnil
        simpa using this
      simpa using List.dropWhile_eq_nil_iff.mp h1 x hx
    have hsplit := List.takeWhile_append_dropWhile (p := Char.isWhitespace) (l := s.data)
    rw [← hsplit] at hc
    rcases List.mem_append.mp hc with hc | hc
    · exact List.mem_takeWhile_imp hc
    · exact hall c (List.mem_reverse.mpr hc)
  · intro hws
    have h1 : s.data.dropWhile Char.isWhitespace = [] :=
      List.dropWhile_eq_nil_iff.mpr fun c hc => hws c hc
    simp [h1]

lemma pyStrip_ne_empty_of_mem {s : String} {c : Char} (hc : c ∈ s.data)
    (hw : ¬ c.isWhitespace) : pyStrip s ≠ "" := by
  intro hcon
  exact hw ((pyStrip_eq_empty_iff s).mp hcon c hc)

/-! Claim C5: conversational validator acceptance and rejection -/

/-- C5: the conversational-format validator accepts
`{messages:[{role:"user",content:"hi"},{role:"assistant",content:"ok"}]}`;
it rejects the same record when either content string is empty; and it rejects
every record whose messages contain only user-role turns (no assistant turn),
whatever the rest of the record looks like. -/
theorem validate_chat_examples :
    (validate_chat (.obj [("messages", .arr
      [.obj [("role", .str "user"), ("content", .str "hi")],
       .obj [("role", .str "assistant"), ("content", .str "ok")]])])).1 = true ∧
    (validate_chat (.obj [("messages", .arr
      [.obj [("role", .str "user"), ("content", .str "")],
       .obj [("role", .str "assistant"), ("content", .str "ok")]])])).1 = false ∧
    (validate_chat (.obj [("messages", .arr
      [.obj [("role", .str "user"), ("content", .str "hi")],
       .obj [("role", .str "assistant"), ("content", .str "")]])])).1 = false ∧
    ∀ (o : JVal) (msgs : List JVal), objGet o "messages" = some (.arr msgs) →
      (∀ m ∈ msgs, objGet m "role" = some (.str "user")) →
      (validate_chat o).1 = false := by
  refine ⟨by decide, by decide, by decide, ?_⟩
  intro o msgs hm hr
  have hassist : hasRole msgs "assistant" = false := by
    rw [hasRole, List.any_eq_false]
    intro m hmem
    rw [hr m hmem]
    decide
  unfold validate_chat
  rw [hm]
  by_cases hl : msgs.length < 2
  · simp [hl]
  · cases hc : check_messages msgs 0 with
    | some reason => simp [hl, hc]
    | none => simp [hl, hc, hassist]

/-- Witness for C5: a two-user-turn record with otherwise valid turns is
rejected. -/
theorem validate_chat_examples_witness :
    (validate_chat (.obj [("messages", .arr
      [.obj [("role", .str "user"), ("content", .str "hi")],
       .obj [("role", .str "user"), ("content", .str "again")]])])).1 = false := by
  refine validate_chat_examples.2.2.2 _
    [.obj [("role", .str "user"), ("content", .str "hi")],
     .obj [("role", .str "user"), ("content", .str "again")]] rfl ?_
  intro m hm
  rcases hm with _ | ⟨_, h2⟩
  · rfl
  · rcases h2 with _ | ⟨_, h3⟩
    · rfl
    · cases h3

/-! Claim C6: the retrain trigger condition -/

/-- C6: the retrain policy triggers iff `passRate < minPass`, or
`repairedRate > maxRepair`, or `taxonomy["SCHEMA"] > 0`, or
`taxonomy["JSON_PARSE"] > 0`, reading every missing field as `0`; in
particular a summary with no `passRate` triggers whenever `minPass > 0`. -/
theorem retrain_trigger_iff (r : EvalSummary) (min_pass max_repair : ℚ) :
    (retrainTriggered r min_pass max_repair = true ↔
      (r.passRate.getD 0 < min_pass ∨ max_repair < r.repairedRate.getD 0 ∨
       0 < taxGet (r.taxonomy.getD []) "SCHEMA" ∨
       0 < taxGet (r.taxonomy.getD []) "JSON_PARSE")) ∧
    (r.passRate = none → 0 < min_pass → retrainTriggered r min_pass max_repair = true) := by
  have hiff : retrainTriggered r min_pass max_repair = true ↔
      (r.passRate.getD 0 < min_pass ∨ max_repair < r.repairedRate.getD 0 ∨
       0 < taxGet (r.taxonomy.getD []) "SCHEMA" ∨
       0 < taxGet (r.taxonomy.getD []) "JSON_PARSE") := by
    unfold retrainTriggered needReasons
    dsimp only
    split_ifs <;> simp_all
  refine ⟨hiff, fun hnone hpos => hiff.mpr (Or.inl ?_)⟩
  rw [hnone]
  simpa using hpos

/-- Witness for C6: a summary with no fields at all triggers for
`minPass = 0.95`. -/
theorem retrain_trigger_iff_witness :
    retrainTriggered ⟨none, none, none, []⟩ (19/20) (1/10) = true :=
  (retrain_trigger_iff ⟨none, none, none, []⟩ (19/20) (1/10)).2 rfl (by norm_num)

/-! Claim C7: harvest-file append discipline -/

/-- C7: when the policy triggers and a harvest destination is given, the
harvest file gains exactly one line per detail entry whose `ok` is not `True`,
its previous contents survive as a prefix (also across a repeated run), and a
non-triggering run leaves the file untouched. -/
theorem retrain_harvest_append (r : EvalSummary) (min_pass max_repair : ℚ)
    (ts ts' : String) (old : List String) :
    (needReasons r min_pass max_repair ≠ [] →
      retrain_run r min_pass max_repair true ts old = old ++ harvestLines r ts ∧
      (retrain_run r min_pass max_repair true ts old).length =
        old.length + (failingDetails r).length ∧
      (retrain_run r min_pass max_repair true ts old).take old.length = old ∧
      (retrain_run r min_pass max_repair true ts'
          (retrain_run r min_pass max_repair true ts old)).take
          (retrain_run r min_pass max_repair true ts old).length =
        retrain_run r min_pass max_repair true ts old) ∧
    (needReasons r min_pass max_repair = [] →
      retrain_run r min_pass max_repair true ts old = old) := by
  constructor
  · intro hne
    have hne' : (needReasons r min_pass max_repair).isEmpty = false := by
      simpa [List.isEmpty_iff] using hne
    have heq : retrain_run r min_pass max_repair true ts old = old ++ harvestLines r ts := by
      simp [retrain_run, hne']
    refine ⟨heq, ?_, ?_, ?_⟩
    · simp [heq, harvestLines]
    · simp [heq]
    · simp only [retrain_run, hne', Bool.false_eq_true, if_false, if_true]
      exact List.take_left _ _
  · intro hemp
    simp [retrain_run, hemp]

/-- Witness for C7: a summary with a failing detail entry and a sub-threshold
pass rate appends exactly its harvest line to the file. -/
theorem retrain_harvest_append_witness :
    retrain_run ⟨some (1/2), none, none, [⟨none, none, none, none, none⟩]⟩
        (19/20) (1/10) true "t0" ["old line"] =
      ["old line"] ++
        harvestLines ⟨some (1/2), none, none, [⟨none, none, none, none, none⟩]⟩ "t0" :=
  ((retrain_harvest_append ⟨some (1/2), none, none, [⟨none, none, none, none, none⟩]⟩
      (19/20) (1/10) "t0" "t1" ["old line"]).1 (by norm_num [needReasons, taxGet])).1

/-! Claim C8: fraction check is fatal before any I/O -/

/-- C8: when the three fractions do not sum to 1 within `1e-9`, both splitters
fail with the configuration error `"train+val+test must sum to 1.0"`; no
output partition is produced (the error is raised before any file I/O). -/
theorem split_fraction_check (shuffle : Int → List String → List String)
    (group_key : String) (seed : Int) (t v te : ℚ)
    (ginput : List (Option JVal)) (sinput : List String)
    (hsum : 1/1000000000 < |t + v + te - 1|) :
    group_split_main shuffle group_key seed t v te ginput =
      Except.error "train+val+test must sum to 1.0" ∧
    split_main shuffle seed t v te sinput =
      Except.error "train+val+test must sum to 1.0" := by
  constructor
  · unfold group_split_main
    rw [if_pos hsum]
  · unfold split_main
    rw [if_pos hsum]

/-- Witness for C8: fractions `(0.5, 0.5, 0.5)` are rejected by both splitters. -/
theorem split_fraction_check_witness :
    group_split_main (fun _ l => l) "k" 0 (1/2) (1/2) (1/2) [] =
      Except.error "train+val+test must sum to 1.0" ∧
    split_main (fun _ l => l) 0 (1/2) (1/2) (1/2) [] =
      Except.error "train+val+test must sum to 1.0" :=
  split_fraction_check (fun _ l => l) "k" 0 (1/2) (1/2) (1/2) [] []
    (by rw [show (1:ℚ)/2 + 1/2 + 1/2 - 1 = 1/2 by norm_num, abs_of_pos (by norm_num)]
        norm_num)

/-! Claim C9: statistics on an empty sample -/

/-- C9: on an input with zero parseable records the statistics engine reports
`count = 0` and every length statistic equal to `0` (no error branch of
min/median/quantiles/max/mean is reached), with an all-zero label block. -/
theorem stats_report_empty (mode : Mode) (label_path : Option String)
    (input : List (Option JVal)) (hemp : input.filterMap id = []) :
    stats_report mode label_path input =
      { count := 0,
        length_chars := { min := 0, p50 := 0, p90 := 0, max := 0, mean := 0 },
        labels := label_path.map fun p =>
          { label_path := p, missing := 0, counts := [] } } := by
  simp [stats_report, hemp, tallyLabels, sortCounts, List.insertionSort]

/-- Witness for C9: a single malformed line yields the all-zero report. -/
theorem stats_report_empty_witness :
    stats_report .chat (some "y") [none] =
      { count := 0,
        length_chars := { min := 0, p50 := 0, p90 := 0, max := 0, mean := 0 },
        labels := some { label_path := "y", missing := 0, counts := [] } } :=
  stats_report_empty .chat (some "y") [none] rfl

/-! Claim C3: deduplicator lemmas -/

lemma dedupeGo_not_seen : ∀ (xs : List (Option JVal)) (seen : List String),
    ∀ o ∈ dedupeGo xs seen, h o ∉ seen := by
  intro xs
  induction xs with
  | nil => intro seen o ho; simp [dedupeGo] at ho
  | cons x rest ih =>
    intro seen o ho
    cases x with
    | none => exact ih seen o ho
    | some p =>
      by_cases hp : h p ∈ seen
      · rw [dedupeGo, if_pos hp] at ho
        exact ih seen o ho
      · rw [dedupeGo, if_neg hp] at ho
        rcases List.mem_cons.mp ho with rfl | ho'
        · exact hp
        · have := ih _ o ho'
          intro hcon
          exact this (List.mem_cons_of_mem _ hcon)

lemma dedupeGo_sublist : ∀ (xs : List (Option JVal)) (seen : List String),
    (dedupeGo xs seen).Sublist (xs.filterMap id) := by
  intro xs
  induction xs with
  | nil => intro seen; simp [dedupeGo]
  | cons x rest ih =>
    intro seen
    cases x with
    | none => simpa [dedupeGo] using ih seen
    | some p =>
      by_cases hp : h p ∈ seen
      · rw [dedupeGo, if_pos hp]
        simpa [List.filterMap_cons] using (ih seen).cons p
      · rw [dedupeGo, if_neg hp]
        simpa [List.filterMap_cons] using (ih (h p :: seen)).cons₂ p

lemma dedupeGo_pairwise : ∀ (xs : List (Option JVal)) (seen : List String),
    (dedupeGo xs seen).Pairwise (fun a b => h a ≠ h b) := by
  intro xs
  induction xs with
  | nil => intro seen; simp [dedupeGo]
  | cons x rest ih =>
    intro seen
    cases x with
    | none => exact ih seen
    | some p =>
      by_cases hp : h p ∈ seen
      · rw [dedupeGo, if_pos hp]; exact ih seen
      · rw [dedupeGo, if_neg hp]
        refine List.Pairwise.cons ?_ (ih _)
        intro o ho hcon
        exact dedupeGo_not_seen _ _ o ho (by rw [← hcon]; exact List.mem_cons_self _ _)

lemma dedupeGo_covers : ∀ (xs : List (Option JVal)) (seen : List String),
    ∀ r ∈ xs.filterMap id, h r ∉ seen → ∃ o ∈ dedupeGo xs seen, h o = h r := by
  intro xs
  induction xs with
  | nil => intro seen r hr; simp at hr
  | cons x rest ih =>
    intro seen r hr hns
    cases x with
    | none => exact ih seen r (by simpa using hr) hns
    | some p =>
      rw [List.filterMap_cons] at hr
      simp only [id] at hr
      rcases List.mem_cons.mp hr with rfl | hr'
      · by_cases hp : h r ∈ seen
        · exact absurd hp hns
        · rw [dedupeGo, if_neg hp]
          exact ⟨r, List.mem_cons_self _ _, rfl⟩
      · by_cases hp : h p ∈ seen
        · rw [dedupeGo, if_pos hp]
          exact ih seen r hr' hns
        · rw [dedupeGo, if_neg hp]
          by_cases hpr : h r = h p
          · exact ⟨p, List.mem_cons_self _ _, hpr.symm⟩
          · have hns' : h r ∉ h p :: seen := by
              intro hcon
              rcases List.mem_cons.mp hcon with hc | hc
              · exact hpr hc
              · exact hns hc
            obtain ⟨o, ho, heq⟩ := ih (h p :: seen) r hr' hns'
            exact ⟨o, List.mem_cons_of_mem _ ho, heq⟩

lemma dedupeGo_first : ∀ (xs : List (Option JVal)) (seen : List String),
    ∀ o ∈ dedupeGo xs seen,
      (xs.filterMap id).find? (fun p => h p == h o) = some o := by
  intro xs
  induction xs with
  | nil => intro seen o ho; simp [dedupeGo] at ho
  | cons x rest ih =>
    intro seen o ho
    cases x with
    | none => simpa [List.filterMap_cons] using ih seen o ho
    | some p =>
      rw [List.filterMap_cons]
      simp only [id]
      by_cases hp : h p ∈ seen
      · rw [dedupeGo, if_pos hp] at ho
        have hne : ¬ (h p == h o) = true := by
          rw [beq_iff_eq]
          intro hcon
          exact dedupeGo_not_seen _ _ o ho (hcon ▸ hp)
        have hne' : ¬ ((fun q => h q == h o) p) = true := hne
        rw [@List.find?_cons_of_neg _ (fun q => h q == h o) p (List.filterMap id rest) hne']
        exact ih seen o ho
      · rw [dedupeGo, if_neg hp] at ho
        rcases List.mem_cons.mp ho with rfl | ho'
        · rw [List.find?_cons_of_pos _ (by simp)]
        · have hne : ¬ (h p == h o) = true := by
            rw [beq_iff_eq]
            intro hcon
            exact dedupeGo_not_seen _ _ o ho' (by rw [← hcon]; exact List.mem_cons_self _ _)
          have hne' : ¬ ((fun q => h q == h o) p) = true := hne
          rw [@List.find?_cons_of_neg _ (fun q => h q == h o) p (List.filterMap id rest) hne']
          exact ih _ o ho'

lemma dedupeGo_of_fresh : ∀ (l : List JVal) (seen : List String),
    (∀ o ∈ l, h o ∉ seen) → l.Pairwise (fun a b => h a ≠ h b) →
    dedupeGo (l.map some) seen = l := by
  intro l
  induction l with
  | nil => intro seen _ _; rfl
  | cons o rest ih =>
    intro seen hfresh hpw
    have ho : h o ∉ seen := hfresh o (List.mem_cons_self _ _)
    rw [List.map_cons, dedupeGo, if_neg ho]
    congr 1
    refine ih (h o :: seen) ?_ (List.Pairwise.of_cons hpw)
    intro p hp hcon
    rcases List.mem_cons.mp hcon with hc | hc
    · exact (List.rel_of_pairwise_cons hpw hp) hc.symm
    · exact hfresh p (List.mem_cons_of_mem _ hp) hc

/-- C3: the deduplicator's output is the digest-first-occurrence subsequence
of the parseable input records: it is a subsequence (order preserved, length
bounded, members drawn from the input); no two output records share a
canonical digest; every parseable record's digest is represented; each output
record is the *first* input record bearing its digest; and re-running the
deduplicator on its own output leaves it unchanged. -/
theorem dedupe_correct (input : List (Option JVal)) :
    (dedupe input).Sublist (input.filterMap id) ∧
    (dedupe input).length ≤ (input.filterMap id).length ∧
    (∀ o ∈ dedupe input, o ∈ input.filterMap id) ∧
    (dedupe input).Pairwise (fun a b => h a ≠ h b) ∧
    (∀ r ∈ input.filterMap id, ∃ o ∈ dedupe input, h o = h r) ∧
    (∀ o ∈ dedupe input, (input.filterMap id).find? (fun p => h p == h o) = some o) ∧
    dedupe ((dedupe input).map some) = dedupe input := by
  have hsub := dedupeGo_sublist input []
  refine ⟨hsub, hsub.length_le, fun o ho => hsub.mem ho, dedupeGo_pairwise input [],
    fun r hr => dedupeGo_covers input [] r hr (by simp),
    dedupeGo_first input [], ?_⟩
  exact dedupeGo_of_fresh _ [] (by simp) (dedupeGo_pairwise input [])

/-! Claim C4: ordering lemmas for the canonical key sort -/

lemma char_eq_of_toNat_eq {x y : Char} (hxy : x.toNat = y.toNat) : x = y :=
  Char.ext (UInt32.ext hxy)

lemma lexLe_total : ∀ a b : List Char, lexLe a b = true ∨ lexLe b a = true := by
  intro a
  induction a with
  | nil => intro b; left; rfl
  | cons x as ih =>
    intro b
    cases b with
    | nil => right; rfl
    | cons y bs =>
      rcases Nat.lt_trichotomy x.toNat y.toNat with hlt | heq | hgt
      · left; simp [lexLe, hlt]
      · have h1 : ¬ x.toNat < y.toNat := by omega
        have h2 : ¬ y.toNat < x.toNat := by omega
        rcases ih bs with hc | hc
        · left; simpa [lexLe, h1, h2] using hc
        · right; simpa [lexLe, h1, h2] using hc
      · right; simp [lexLe, hgt]

lemma lexLe_trans : ∀ a b c : List Char,
    lexLe a b = true → lexLe b c = true → lexLe a c = true := by
  intro a
  induction a with
  | nil => intro b c _ _; rfl
  | cons x as ih =>
    intro b c hab hbc
    cases b with
    | nil => simp [lexLe] at hab
    | cons y bs =>
      cases c with
      | nil => simp [lexLe] at hbc
      | cons z cs =>
        simp only [lexLe] at hab hbc ⊢
        split_ifs at hab hbc ⊢ <;>
          first
            | rfl
            | omega
            | (exact ih bs cs hab hbc)

lemma lexLe_antisymm : ∀ a b : List Char,
    lexLe a b = true → lexLe b a = true → a = b := by
  intro a
  induction a with
  | nil =>
    intro b _ hba
    cases b with
    | nil => rfl
    | cons y bs => simp [lexLe] at hba
  | cons x as ih =>
    intro b hab hba
    cases b with
    | nil => simp [lexLe] at hab
    | cons y bs =>
      simp only [lexLe] at hab hba
      split_ifs at hab hba <;>
        first
          | omega
          | (exact Bool.noConfusion hab)
          | (exact Bool.noConfusion hba)
          | (have hx : x = y := char_eq_of_toNat_eq (by omega)
             cases hx
             exact congrArg (x :: ·) (ih bs hab hba))

lemma string_eq_of_data_eq {s t : String} (hst : s.data = t.data) : s = t := by
  cases s
  cases t
  exact congrArg String.mk hst

lemma keyLE_total (p q : String × JVal) : keyLE p q ∨ keyLE q p :=
  lexLe_total p.1.data q.1.data

lemma orderedInsert_keyLE_comm (p q : String × JVal) (hne : p.1 ≠ q.1) :
    ∀ l : List (String × JVal),
      List.orderedInsert keyLE p (List.orderedInsert keyLE q l) =
      List.orderedInsert keyLE q (List.orderedInsert keyLE p l) := by
  have hnb : ¬ (keyLE p q ∧ keyLE q p) := by
    rintro ⟨h1, h2⟩
    exact hne (string_eq_of_data_eq (lexLe_antisymm _ _ h1 h2))
  intro l
  induction l with
  | nil =>
    by_cases hpq : keyLE p q
    · have hqp : ¬ keyLE q p := fun hc => hnb ⟨hpq, hc⟩
      simp [List.orderedInsert, hpq, hqp]
    · have hqp : keyLE q p := (keyLE_total p q).resolve_left hpq
      simp [List.orderedInsert, hpq, hqp]
  | cons c l ih =>
    by_cases hqc : keyLE q c
    · by_cases hpq : keyLE p q
      · have hpc : keyLE p c := lexLe_trans _ _ _ hpq hqc
        have hqp : ¬ keyLE q p := fun hc => hnb ⟨hpq, hc⟩
        simp [List.orderedInsert, hqc, hpq, hpc, hqp]
      · have hqp : keyLE q p := (keyLE_total p q).resolve_left hpq
        by_cases hpc : keyLE p c
        · simp [List.orderedInsert, hqc, hpq, hpc, hqp]
        · simp [List.orderedInsert, hqc, hpq, hpc, hqp]
    · by_cases hpc : keyLE p c
      · have hqp : ¬ keyLE q p := fun hc => hqc (lexLe_trans _ _ _ hc hpc)
        simp [List.orderedInsert, hqc, hpc, hqp]
      · simp [List.orderedInsert, hqc, hpc, ih]

/-- Structurally equal records have equal recursively-key-sorted forms. -/
theorem structEq_sortNorm {a b : JVal} (hab : StructEq a b) : sortNorm a = sortNorm b := by
  induction hab with
  | null => rfl
  | bool b => rfl
  | num n => rfl
  | str s => rfl
  | arrNil => rfl
  | arrCons h1 h2 ih1 ih2 =>
    have hxs := JVal.arr.inj ih2
    simp only [sortNorm, sortNormList]
    rw [ih1, hxs]
  | objNil => rfl
  | objCons h1 h2 ih1 ih2 =>
    have hfs := JVal.obj.inj ih2
    simp only [sortNorm, sortNormFields, List.insertionSort] at hfs ⊢
    rw [ih1, hfs]
  | @objSwap k k' v w fs hne =>
    simp only [sortNorm, sortNormFields, List.insertionSort]
    exact congrArg JVal.obj
      (orderedInsert_keyLE_comm (k, sortNorm v) (k', sortNorm w) hne _)
  | trans h1 h2 ih1 ih2 => exact ih1.trans ih2

/-- C4: two structurally equal records (same keys mapped to the same values,
regardless of the order in which object keys originally appeared) receive the
same canonical digest, so the deduplicator treats them as exact duplicates. -/
theorem structEq_same_digest (a b : JVal) (hab : StructEq a b) : h a = h b :=
  congrArg dumps (structEq_sortNorm hab)

/-- Witness for C4: swapping the two fields of an object does not change its
digest. -/
theorem structEq_same_digest_witness :
    h (.obj [("b", .num 1), ("a", .num 2)]) = h (.obj [("a", .num 2), ("b", .num 1)]) :=
  structEq_same_digest _ _ (StructEq.objSwap (by decide))

/-! Claim C10: harvested rows re-entering the validator -/

lemma harvest_user_turn_nonempty (d : Detail) :
    pyStrip ("Produce a schema-valid report for test: " ++ pyStrOpt d.name) ≠ "" := by
  have hdata : ("Produce a schema-valid report for test: " ++ pyStrOpt d.name).data =
      "Produce a schema-valid report for test: ".data ++ (pyStrOpt d.name).data :=
    String.data_append _ _
  have hmem : Char.ofNat 80 ∈
      ("Produce a schema-valid report for test: " ++ pyStrOpt d.name).data := by
    rw [hdata]
    exact List.mem_append_left _ (by decide)
  exact pyStrip_ne_empty_of_mem hmem (by decide)

set_option maxRecDepth 8192 in
/-- C10: a record harvested by the retrain policy passes the conversational
validator iff the detail entry's error text (`str(d.get("error") or "")`) is
non-whitespace: the other four template turns always carry valid roles and
non-empty content, while a missing/null/falsy or whitespace-only error yields
an empty assistant turn that the validator rejects. -/
theorem harvest_validate_iff (d : Detail) (ts : String) :
    (validate_chat (harvestRow d ts)).1 = true ↔ pyStrip (errText d) ≠ "" := by
  have hm2 := harvest_user_turn_nonempty d
  by_cases he : pyStrip (errText d) = ""
  · simp +decide [validate_chat, harvestRow, objGet, lookupField, check_messages,
      hm2, he]
  · simp +decide [validate_chat, harvestRow, objGet, lookupField, check_messages,
      hasRole, hm2, he]

/-! Claims C1/C2: group-map lemmas -/

lemma lookupG_addGroup (gs : List (String × List JVal)) (k0 k : String) (v : JVal) :
    lookupG (addGroup gs k0 v) k =
      if k = k0 then lookupG gs k0 ++ [v] else lookupG gs k := by
  induction gs with
  | nil =>
    by_cases hk : k = k0
    · subst hk
      simp [addGroup, lookupG]
    · simp [addGroup, lookupG, hk, Ne.symm hk]
  | cons c rest ih =>
    obtain ⟨k', vs⟩ := c
    by_cases h1 : k' = k0
    · subst h1
      by_cases hk : k = k'
      · subst hk
        simp [addGroup, lookupG]
      · simp [addGroup, lookupG, hk, Ne.symm hk]
    · by_cases hk : k' = k
      · subst hk
        simp [addGroup, lookupG, h1, fun hc : k' = k0 => h1 hc]
      · simp [addGroup, lookupG, h1, hk, ih]

lemma lookupG_buildGroups (gk : String) :
    ∀ (recs : List JVal) (gs : List (String × List JVal)) (k : String),
      lookupG (buildGroups gk recs gs) k =
        lookupG gs k ++ recs.filter (fun r => keyOfRecord gk r == k) := by
  intro recs
  induction recs with
  | nil => intro gs k; simp [buildGroups]
  | cons r rest ih =>
    intro gs k
    rw [buildGroups, ih, lookupG_addGroup]
    by_cases hk : k = keyOfRecord gk r
    · rw [if_pos hk, List.filter_cons]
      have hb : (keyOfRecord gk r == k) = true := by simp [hk]
      rw [hb]
      simp [hk]
    · rw [if_neg hk, List.filter_cons]
      have hb : (keyOfRecord gk r == k) = false := by
        simp only [beq_eq_false_iff_ne, ne_eq]
        exact fun hc => hk hc.symm
      rw [hb]
      simp

lemma keys_addGroup (gs : List (String × List JVal)) (k0 : String) (v : JVal) :
    (addGroup gs k0 v).map Prod.fst =
      if k0 ∈ gs.map Prod.fst then gs.map Prod.fst else gs.map Prod.fst ++ [k0] := by
  induction gs with
  | nil => simp [addGroup]
  | cons c rest ih =>
    obtain ⟨k', vs⟩ := c
    by_cases h1 : k' = k0
    · subst h1
      simp [addGroup]
    · have h2 : ¬ k0 = k' := fun hc => h1 hc.symm
      by_cases hmem : k0 ∈ rest.map Prod.fst
      · simp [addGroup, h1, h2, hmem, ih]
      · simp [addGroup, h1, h2, hmem, ih]

lemma keys_buildGroups_mem (gk : String) :
    ∀ (recs : List JVal) (gs : List (String × List JVal)) (k : String),
      (k ∈ (buildGroups gk recs gs).map Prod.fst ↔
        k ∈ gs.map Prod.fst ∨ ∃ r ∈ recs, keyOfRecord gk r = k) := by
  intro recs
  induction recs with
  | nil => intro gs k; simp [buildGroups]
  | cons r rest ih =>
    intro gs k
    rw [buildGroups, ih, keys_addGroup]
    by_cases hmem : keyOfRecord gk r ∈ gs.map Prod.fst
    · rw [if_pos hmem]
      constructor
      · rintro (hg | ⟨r', hr', hk⟩)
        · exact Or.inl hg
        · exact Or.inr ⟨r', List.mem_cons_of_mem _ hr', hk⟩
      · rintro (hg | ⟨r', hr', hk⟩)
        · exact Or.inl hg
        · rcases List.mem_cons.mp hr' with rfl | hr2
          · exact Or.inl (hk ▸ hmem)
          · exact Or.inr ⟨r', hr2, hk⟩
    · rw [if_neg hmem]
      constructor
      · rintro (hg | ⟨r', hr', hk⟩)
        · rcases List.mem_append.mp hg with hg2 | hg2
          · exact Or.inl hg2
          · exact Or.inr ⟨r, List.mem_cons_self _ _, (List.mem_singleton.mp hg2).symm⟩
        · exact Or.inr ⟨r', List.mem_cons_of_mem _ hr', hk⟩
      · rintro (hg | ⟨r', hr', hk⟩)
        · exact Or.inl (List.mem_append_left _ hg)
        · rcases List.mem_cons.mp hr' with rfl | hr2
          · exact Or.inl (List.mem_append_right _ (List.mem_singleton.mpr hk.symm))
          · exact Or.inr ⟨r', hr2, hk⟩

lemma nodup_keys_addGroup (gs : List (String × List JVal)) (k0 : String) (v : JVal)
    (hnd : (gs.map Prod.fst).Nodup) : ((addGroup gs k0 v).map Prod.fst).Nodup := by
  rw [keys_addGroup]
  by_cases hmem : k0 ∈ gs.map Prod.fst
  · rwa [if_pos hmem]
  · rw [if_neg hmem]
    refine List.Nodup.append hnd (List.nodup_singleton _) ?_
    intro a ha hb
    rw [List.mem_singleton] at hb
    exact hmem (hb ▸ ha)

lemma nodup_keys_buildGroups (gk : String) :
    ∀ (recs : List JVal) (gs : List (String × List JVal)),
      (gs.map Prod.fst).Nodup → ((buildGroups gk recs gs).map Prod.fst).Nodup := by
  intro recs
  induction recs with
  | nil => intro gs hnd; exact hnd
  | cons r rest ih =>
    intro gs hnd
    exact ih _ (nodup_keys_addGroup _ _ _ hnd)

lemma mem_flattenG (gk : String) (parsed : List JVal) (ks : List String) (r : JVal) :
    r ∈ flattenG (buildGroups gk parsed []) ks ↔
      keyOfRecord gk r ∈ ks ∧ r ∈ parsed := by
  rw [flattenG, List.mem_flatMap]
  constructor
  · rintro ⟨k, hk, hr⟩
    rw [lookupG_buildGroups] at hr
    simp only [lookupG, List.nil_append] at hr
    have hmf := List.mem_filter.mp hr
    have hkey : keyOfRecord gk r = k := by simpa using hmf.2
    exact ⟨hkey ▸ hk, hmf.1⟩
  · rintro ⟨hk, hr⟩
    refine ⟨keyOfRecord gk r, hk, ?_⟩
    rw [lookupG_buildGroups]
    simp only [lookupG, List.nil_append]
    exact List.mem_filter.mpr ⟨hr, by simp⟩

lemma key_mem_flattenG (gk : String) (parsed : List JVal) (ks : List String) (k : String) :
    k ∈ (flattenG (buildGroups gk parsed []) ks).map (keyOfRecord gk) ↔
      k ∈ ks ∧ k ∈ parsed.map (keyOfRecord gk) := by
  rw [List.mem_map]
  constructor
  · rintro ⟨r, hr, rfl⟩
    have := (mem_flattenG gk parsed ks r).mp hr
    exact ⟨this.1, List.mem_map.mpr ⟨r, this.2, rfl⟩⟩
  · rintro ⟨hks, hp⟩
    obtain ⟨r, hr, rfl⟩ := List.mem_map.mp hp
    exact ⟨r, (mem_flattenG gk parsed ks r).mpr ⟨hks, hr⟩, rfl⟩

lemma pySliceTo_nonneg (l : List α) (n : Int) (hn : 0 ≤ n) :
    pySliceTo l n = l.take n.toNat := by
  unfold pySliceTo pyNorm
  rw [if_neg (not_lt.mpr hn)]
  rcases le_total n.toNat l.length with hle | hle
  · rw [min_eq_left hle]
  · rw [min_eq_right hle, List.take_length, List.take_of_length_le hle]

lemma pySliceFrom_nonneg (l : List α) (n : Int) (hn : 0 ≤ n) :
    pySliceFrom l n = l.drop n.toNat := by
  unfold pySliceFrom pyNorm
  rw [if_neg (not_lt.mpr hn)]
  rcases le_total n.toNat l.length with hle | hle
  · rw [min_eq_left hle]
  · rw [min_eq_right hle, List.drop_length, List.drop_eq_nil_of_le hle]

lemma pySlice_nonneg (l : List α) (a b : Int) (ha : 0 ≤ a) (hb : 0 ≤ b) :
    pySlice l a b = (l.take b.toNat).drop a.toNat := by
  unfold pySlice pyNorm
  rw [if_neg (not_lt.mpr ha), if_neg (not_lt.mpr hb)]
  have h1 : l.take (min b.toNat l.length) = l.take b.toNat := by
    rcases le_total b.toNat l.length with hle | hle
    · rw [min_eq_left hle]
    · rw [min_eq_right hle, List.take_length, List.take_of_length_le hle]
  rw [h1]
  rcases le_total a.toNat l.length with hle | hle
  · rw [min_eq_left hle]
  · rw [min_eq_right hle]
    have h2 : (l.take b.toNat).length ≤ l.length := by
      rw [List.length_take]
      omega
    rw [List.drop_eq_nil_of_le h2, List.drop_eq_nil_of_le (le_trans h2 hle)]

lemma pyInt_of_nonneg {q : ℚ} (hq : 0 ≤ q) : pyInt q = ⌊q⌋ := by
  rw [pyInt, if_neg (not_lt.mpr hq)]

lemma pyInt_nonneg {q : ℚ} (hq : 0 ≤ q) : 0 ≤ pyInt q := by
  rw [pyInt_of_nonneg hq]
  exact Int.floor_nonneg.mpr hq

lemma group_split_core_shape (shuffle : Int → List String → List String) (gk : String)
    (seed : Int) (t v : ℚ) (input : List (Option JVal)) (ht : 0 ≤ t) (hv : 0 ≤ v) :
    group_split_core shuffle gk seed t v input =
      (flattenG (buildGroups gk (input.filterMap id) [])
        ((shuffle seed ((buildGroups gk (input.filterMap id) []).map Prod.fst)).take
          (⌊((shuffle seed ((buildGroups gk (input.filterMap id) []).map Prod.fst)).length : ℚ) * t⌋.toNat)),
       flattenG (buildGroups gk (input.filterMap id) [])
        (((shuffle seed ((buildGroups gk (input.filterMap id) []).map Prod.fst)).drop
          (⌊((shuffle seed ((buildGroups gk (input.filterMap id) []).map Prod.fst)).length : ℚ) * t⌋.toNat)).take
          (⌊((shuffle seed ((buildGroups gk (input.filterMap id) []).map Prod.fst)).length : ℚ) * v⌋.toNat)),
       flattenG (buildGroups gk (input.filterMap id) [])
        ((shuffle seed ((buildGroups gk (input.filterMap id) []).map Prod.fst)).drop
          (⌊((shuffle seed ((buildGroups gk (input.filterMap id) []).map Prod.fst)).length : ℚ) * t⌋.toNat +
           ⌊((shuffle seed ((buildGroups gk (input.filterMap id) []).map Prod.fst)).length : ℚ) * v⌋.toNat))) := by
  unfold group_split_core
  dsimp only
  have htt : (0:ℚ) ≤ ((shuffle seed ((buildGroups gk (input.filterMap id) []).map Prod.fst)).length : ℚ) * t :=
    mul_nonneg (by positivity) ht
  have htv : (0:ℚ) ≤ ((shuffle seed ((buildGroups gk (input.filterMap id) []).map Prod.fst)).length : ℚ) * v :=
    mul_nonneg (by positivity) hv
  have h1 : (0:Int) ≤ pyInt (((shuffle seed ((buildGroups gk (input.filterMap id) []).map Prod.fst)).length : ℚ) * t) :=
    pyInt_nonneg htt
  have h2 : (0:Int) ≤ pyInt (((shuffle seed ((buildGroups gk (input.filterMap id) []).map Prod.fst)).length : ℚ) * v) :=
    pyInt_nonneg htv
  rw [pySliceTo_nonneg _ _ h1, pySlice_nonneg _ _ _ h1 (by omega), pySliceFrom_nonneg _ _ (by omega)]
  rw [pyInt_of_nonneg htt] at h1 ⊢
  rw [pyInt_of_nonneg htv] at h2 ⊢
  rw [Int.toNat_add h1 h2, List.drop_take, Nat.add_sub_cancel_left]

set_option maxHeartbeats 1000000 in
/-- C1 (amended: nonnegative fractions): for every permutation-valued shuffle,
every seed, and every nonnegative fraction triple summing to 1 within `1e-9`,
the group-aware splitter succeeds and assigns each distinct group key to
exactly one partition: the key sets of the three outputs are pairwise
disjoint, their union is the set of all group keys derived from the input
(unresolved paths mapping to `"__MISSING__"` inside `keyOfRecord`), every
parseable record lands in some partition, and records sharing a group key
land in the same partition. -/
theorem group_split_partitions_groups
    (shuffle : Int → List String → List String)
    (hsh : ∀ (s : Int) (l : List String), (shuffle s l).Perm l)
    (gk : String) (seed : Int) (t v te : ℚ) (input : List (Option JVal))
    (ht : 0 ≤ t) (hv : 0 ≤ v) (hte : 0 ≤ te)
    (hsum : |t + v + te - 1| ≤ 1 / 1000000000) :
    ∃ tr va ts,
      group_split_main shuffle gk seed t v te input = Except.ok (tr, va, ts) ∧
      (∀ k, ¬ (k ∈ tr.map (keyOfRecord gk) ∧ k ∈ va.map (keyOfRecord gk))) ∧
      (∀ k, ¬ (k ∈ tr.map (keyOfRecord gk) ∧ k ∈ ts.map (keyOfRecord gk))) ∧
      (∀ k, ¬ (k ∈ va.map (keyOfRecord gk) ∧ k ∈ ts.map (keyOfRecord gk))) ∧
      (∀ k, (k ∈ tr.map (keyOfRecord gk) ∨ k ∈ va.map (keyOfRecord gk) ∨
              k ∈ ts.map (keyOfRecord gk)) ↔
            k ∈ (input.filterMap id).map (keyOfRecord gk)) ∧
      (∀ r ∈ input.filterMap id, r ∈ tr ∨ r ∈ va ∨ r ∈ ts) ∧
      (∀ r r', r ∈ input.filterMap id → r' ∈ input.filterMap id →
        keyOfRecord gk r = keyOfRecord gk r' →
        ((r ∈ tr ↔ r' ∈ tr) ∧ (r ∈ va ↔ r' ∈ va) ∧ (r ∈ ts ↔ r' ∈ ts))) := by
  have hperm := hsh seed ((buildGroups gk (input.filterMap id) []).map Prod.fst)
  have hnd : (shuffle seed ((buildGroups gk (input.filterMap id) []).map Prod.fst)).Nodup :=
    (hperm.nodup_iff).mpr (nodup_keys_buildGroups gk (input.filterMap id) [] (by simp))
  set parsed := input.filterMap id with hparsed
  set groups := buildGroups gk parsed [] with hgroupsdef
  set ks := shuffle seed (groups.map Prod.fst) with hksdef
  set A := (⌊(ks.length : ℚ) * t⌋).toNat with hAdef
  set B := (⌊(ks.length : ℚ) * v⌋).toNat with hBdef
  have hndA : (ks.drop A).Nodup := (List.drop_sublist _ _).nodup hnd
  have hd1 : List.Disjoint (ks.take A) (ks.drop A) :=
    List.disjoint_take_drop hnd (le_refl A)
  have hd2 : List.Disjoint ((ks.drop A).take B) ((ks.drop A).drop B) :=
    List.disjoint_take_drop hndA (le_refl B)
  have hdropAB : ks.drop (A + B) = (ks.drop A).drop B := (List.drop_drop B A ks).symm
  refine ⟨flattenG groups (ks.take A), flattenG groups ((ks.drop A).take B),
    flattenG groups (ks.drop (A + B)), ?_, ?_, ?_, ?_, ?_, ?_, ?_⟩
  · unfold group_split_main
    rw [if_neg (not_lt.mpr hsum),
      group_split_core_shape shuffle gk seed t v input ht hv]
  · rintro k ⟨h1, h2⟩
    have m1 := (key_mem_flattenG gk parsed (ks.take A) k).mp h1
    have m2 := (key_mem_flattenG gk parsed ((ks.drop A).take B) k).mp h2
    exact hd1 m1.1 (List.take_subset _ _ m2.1)
  · rintro k ⟨h1, h2⟩
    have m1 := (key_mem_flattenG gk parsed (ks.take A) k).mp h1
    have m2 := (key_mem_flattenG gk parsed (ks.drop (A + B)) k).mp h2
    have hmem : k ∈ (ks.drop A).drop B := by rw [← hdropAB]; exact m2.1
    exact hd1 m1.1 (List.drop_subset _ _ hmem)
  · rintro k ⟨h1, h2⟩
    have m1 := (key_mem_flattenG gk parsed ((ks.drop A).take B) k).mp h1
    have m2 := (key_mem_flattenG gk parsed (ks.drop (A + B)) k).mp h2
    have hmem : k ∈ (ks.drop A).drop B := by rw [← hdropAB]; exact m2.1
    exact hd2 m1.1 hmem
  · intro k
    constructor
    · rintro (hk | hk | hk)
      · exact ((key_mem_flattenG gk parsed (ks.take A) k).mp hk).2
      · exact ((key_mem_flattenG gk parsed ((ks.drop A).take B) k).mp hk).2
      · exact ((key_mem_flattenG gk parsed (ks.drop (A + B)) k).mp hk).2
    · intro hk
      obtain ⟨r, hr, rfl⟩ := List.mem_map.mp hk
      have hkeys : keyOfRecord gk r ∈ groups.map Prod.fst :=
        (keys_buildGroups_mem gk parsed [] _).mpr (Or.inr ⟨r, hr, rfl⟩)
      have hks1 : keyOfRecord gk r ∈ ks := (hperm.mem_iff).mpr hkeys
      have hsplit1 : keyOfRecord gk r ∈ ks.take A ∨ keyOfRecord gk r ∈ ks.drop A := by
        rw [← List.mem_append, List.take_append_drop]
        exact hks1
      rcases hsplit1 with hseg | hseg
      · exact Or.inl ((key_mem_flattenG gk parsed (ks.take A) _).mpr ⟨hseg, hk⟩)
      · have hsplit2 : keyOfRecord gk r ∈ (ks.drop A).take B ∨
            keyOfRecord gk r ∈ (ks.drop A).drop B := by
          rw [← List.mem_append, List.take_append_drop]
          exact hseg
        rcases hsplit2 with hseg2 | hseg2
        · exact Or.inr (Or.inl
            ((key_mem_flattenG gk parsed ((ks.drop A).take B) _).mpr ⟨hseg2, hk⟩))
        · refine Or.inr (Or.inr
            ((key_mem_flattenG gk parsed (ks.drop (A + B)) _).mpr ⟨?_, hk⟩))
          rw [hdropAB]
          exact hseg2
  · intro r hr
    have hkeys : keyOfRecord gk r ∈ groups.map Prod.fst :=
      (keys_buildGroups_mem gk parsed [] _).mpr (Or.inr ⟨r, hr, rfl⟩)
    have hks1 : keyOfRecord gk r ∈ ks := (hperm.mem_iff).mpr hkeys
    have hsplit1 : keyOfRecord gk r ∈ ks.take A ∨ keyOfRecord gk r ∈ ks.drop A := by
      rw [← List.mem_append, List.take_append_drop]
      exact hks1
    rcases hsplit1 with hseg | hseg
    · exact Or.inl ((mem_flattenG gk parsed (ks.take A) r).mpr ⟨hseg, hr⟩)
    · have hsplit2 : keyOfRecord gk r ∈ (ks.drop A).take B ∨
          keyOfRecord gk r ∈ (ks.drop A).drop B := by
        rw [← List.mem_append, List.take_append_drop]
        exact hseg
      rcases hsplit2 with hseg2 | hseg2
      · exact Or.inr (Or.inl ((mem_flattenG gk parsed ((ks.drop A).take B) r).mpr ⟨hseg2, hr⟩))
      · refine Or.inr (Or.inr ((mem_flattenG gk parsed (ks.drop (A + B)) r).mpr ⟨?_, hr⟩))
        rw [hdropAB]
        exact hseg2
  · intro r r' hr hr' hkey
    refine ⟨?_, ?_, ?_⟩ <;>
      rw [mem_flattenG gk parsed _ r, mem_flattenG gk parsed _ r', hkey] <;>
      simp [hr, hr']

set_option maxHeartbeats 1000000 in
/-- C2 (amended): with nonnegative fractions summing to exactly 1, after the
seeded shuffle of the distinct group keys exactly `⌊total·trainFrac⌋` groups
are assigned to train, exactly `⌊total·valFrac⌋` groups (the keys following
train in the shuffled list) to validation — so train and validation together
are the first `⌊total·trainFrac⌋ + ⌊total·valFrac⌋` keys, not the first
`⌊total·(trainFrac+valFrac)⌋` — and the remaining
`total − ⌊total·trainFrac⌋ − ⌊total·valFrac⌋` groups go to test. -/
theorem group_split_allocation_counts
    (shuffle : Int → List String → List String)
    (hsh : ∀ (s : Int) (l : List String), (shuffle s l).Perm l)
    (gk : String) (seed : Int) (t v te : ℚ) (input : List (Option JVal))
    (ht : 0 ≤ t) (hv : 0 ≤ v) (hte : 0 ≤ te) (hsum : t + v + te = 1) :
    ∃ tr va ts,
      group_split_main shuffle gk seed t v te input = Except.ok (tr, va, ts) ∧
      (tr.map (keyOfRecord gk)).dedup.length =
        (⌊((groupKeysOf gk input).length : ℚ) * t⌋).toNat ∧
      (va.map (keyOfRecord gk)).dedup.length =
        (⌊((groupKeysOf gk input).length : ℚ) * v⌋).toNat ∧
      (ts.map (keyOfRecord gk)).dedup.length =
        (groupKeysOf gk input).length -
          (⌊((groupKeysOf gk input).length : ℚ) * t⌋).toNat -
          (⌊((groupKeysOf gk input).length : ℚ) * v⌋).toNat ∧
      (∀ k, k ∈ (tr ++ va).map (keyOfRecord gk) ↔
        k ∈ (shuffle seed (groupKeysOf gk input)).take
          ((⌊((groupKeysOf gk input).length : ℚ) * t⌋).toNat +
           (⌊((groupKeysOf gk input).length : ℚ) * v⌋).toNat)) ∧
      (∀ k, k ∈ ts.map (keyOfRecord gk) ↔
        k ∈ (shuffle seed (groupKeysOf gk input)).drop
          ((⌊((groupKeysOf gk input).length : ℚ) * t⌋).toNat +
           (⌊((groupKeysOf gk input).length : ℚ) * v⌋).toNat)) := by
  have hsum' : |t + v + te - 1| ≤ 1 / 1000000000 := by
    rw [hsum]
    simp
  have hperm := hsh seed ((buildGroups gk (input.filterMap id) []).map Prod.fst)
  have hnd : (shuffle seed ((buildGroups gk (input.filterMap id) []).map Prod.fst)).Nodup :=
    (hperm.nodup_iff).mpr (nodup_keys_buildGroups gk (input.filterMap id) [] (by simp))
  set parsed := input.filterMap id with hparsed
  set groups := buildGroups gk parsed [] with hgroupsdef
  set ks := shuffle seed (groups.map Prod.fst) with hksdef
  have hlen : ks.length = (groupKeysOf gk input).length := hperm.length_eq
  set T := (groupKeysOf gk input).length with hTdef
  set A := (⌊(T : ℚ) * t⌋).toNat with hAdef
  set B := (⌊(T : ℚ) * v⌋).toNat with hBdef
  -- bounds on the cut points
  have hfT : (⌊(T : ℚ)⌋ : Int) = T := Int.floor_natCast T
  have ht1 : t ≤ 1 := by linarith
  have htv1 : t + v ≤ 1 := by linarith
  have hAle : A ≤ T := by
    have : ⌊(T : ℚ) * t⌋ ≤ (T : Int) := by
      rw [← hfT]
      exact Int.floor_le_floor (by nlinarith)
    omega
  have hABle : A + B ≤ T := by
    have h1 : ⌊(T : ℚ) * t⌋ + ⌊(T : ℚ) * v⌋ ≤ ⌊(T : ℚ) * t + (T : ℚ) * v⌋ := by
      refine Int.le_floor.mpr ?_
      push_cast
      exact add_le_add (Int.floor_le _) (Int.floor_le _)
    have h2 : ⌊(T : ℚ) * t + (T : ℚ) * v⌋ ≤ (T : Int) := by
      rw [← hfT]
      refine Int.floor_le_floor ?_
      nlinarith
    have h3 : (0:Int) ≤ ⌊(T : ℚ) * t⌋ :=
      Int.floor_nonneg.mpr (mul_nonneg (by positivity) ht)
    have h4 : (0:Int) ≤ ⌊(T : ℚ) * v⌋ :=
      Int.floor_nonneg.mpr (mul_nonneg (by positivity) hv)
    omega
  -- segment membership implies group-key membership
  have hseg_key : ∀ k, k ∈ ks → k ∈ parsed.map (keyOfRecord gk) := by
    intro k hk
    have := (keys_buildGroups_mem gk parsed [] k).mp ((hperm.mem_iff).mp hk)
    rcases this with hfalse | ⟨r, hr, rfl⟩
    · simp at hfalse
    · exact List.mem_map.mpr ⟨r, hr, rfl⟩
  refine ⟨flattenG groups (ks.take A), flattenG groups ((ks.drop A).take B),
    flattenG groups (ks.drop (A + B)), ?_, ?_, ?_, ?_, ?_, ?_⟩
  · unfold group_split_main
    rw [if_neg (not_lt.mpr hsum'),
      group_split_core_shape shuffle gk seed t v input ht hv]
    rw [hksdef, hgroupsdef, hparsed]
    have : ks.length = T := hlen
    rw [hksdef] at this
    rw [this]
  · -- train group count
    have hset : ∀ k, k ∈ (flattenG groups (ks.take A)).map (keyOfRecord gk) ↔
        k ∈ ks.take A := by
      intro k
      rw [key_mem_flattenG gk parsed (ks.take A) k]
      constructor
      · exact fun hk => hk.1
      · exact fun hk => ⟨hk, hseg_key k (List.take_subset _ _ hk)⟩
    have hfin : ((flattenG groups (ks.take A)).map (keyOfRecord gk)).toFinset =
        (ks.take A).toFinset := by
      ext k
      simp only [List.mem_toFinset]
      exact hset k
    calc ((flattenG groups (ks.take A)).map (keyOfRecord gk)).dedup.length
        = ((flattenG groups (ks.take A)).map (keyOfRecord gk)).toFinset.card :=
          (List.card_toFinset _).symm
      _ = (ks.take A).toFinset.card := by rw [hfin]
      _ = (ks.take A).length :=
          List.toFinset_card_of_nodup ((List.take_sublist _ _).nodup hnd)
      _ = A := by rw [List.length_take]; omega
  · -- val group count
    have hset : ∀ k, k ∈ (flattenG groups ((ks.drop A).take B)).map (keyOfRecord gk) ↔
        k ∈ (ks.drop A).take B := by
      intro k
      rw [key_mem_flattenG gk parsed ((ks.drop A).take B) k]
      constructor
      · exact fun hk => hk.1
      · exact fun hk => ⟨hk,
          hseg_key k (List.drop_subset _ _ (List.take_subset _ _ hk))⟩
    have hfin : ((flattenG groups ((ks.drop A).take B)).map (keyOfRecord gk)).toFinset =
        ((ks.drop A).take B).toFinset := by
      ext k
      simp only [List.mem_toFinset]
      exact hset k
    calc ((flattenG groups ((ks.drop A).take B)).map (keyOfRecord gk)).dedup.length
        = ((flattenG groups ((ks.drop A).take B)).map (keyOfRecord gk)).toFinset.card :=
          (List.card_toFinset _).symm
      _ = ((ks.drop A).take B).toFinset.card := by rw [hfin]
      _ = ((ks.drop A).take B).length :=
          List.toFinset_card_of_nodup
            ((List.take_sublist _ _).nodup ((List.drop_sublist _ _).nodup hnd))
      _ = B := by rw [List.length_take, List.length_drop]; omega
  · -- test group count
    have hset : ∀ k, k ∈ (flattenG groups (ks.drop (A + B))).map (keyOfRecord gk) ↔
        k ∈ ks.drop (A + B) := by
      intro k
      rw [key_mem_flattenG gk parsed (ks.drop (A + B)) k]
      constructor
      · exact fun hk => hk.1
      · exact fun hk => ⟨hk, hseg_key k (List.drop_subset _ _ hk)⟩
    have hfin : ((flattenG groups (ks.drop (A + B))).map (keyOfRecord gk)).toFinset =
        (ks.drop (A + B)).toFinset := by
      ext k
      simp only [List.mem_toFinset]
      exact hset k
    calc ((flattenG groups (ks.drop (A + B))).map (keyOfRecord gk)).dedup.length
        = ((flattenG groups (ks.drop (A + B))).map (keyOfRecord gk)).toFinset.card :=
          (List.card_toFinset _).symm
      _ = (ks.drop (A + B)).toFinset.card := by rw [hfin]
      _ = (ks.drop (A + B)).length :=
          List.toFinset_card_of_nodup ((List.drop_sublist _ _).nodup hnd)
      _ = T - A - B := by rw [List.length_drop]; omega
  · -- train ++ val is the first A + B shuffled keys
    intro k
    rw [List.map_append, List.mem_append, List.take_add]
    rw [key_mem_flattenG gk parsed (ks.take A) k,
      key_mem_flattenG gk parsed ((ks.drop A).take B) k, List.mem_append]
    constructor
    · rintro (hk | hk)
      · exact Or.inl hk.1
      · exact Or.inr hk.1
    · rintro (hk | hk)
      · exact Or.inl ⟨hk, hseg_key k (List.take_subset _ _ hk)⟩
      · exact Or.inr ⟨hk,
          hseg_key k (List.drop_subset _ _ (List.take_subset _ _ hk))⟩
  · -- test is the remaining shuffled keys
    intro k
    rw [key_mem_flattenG gk parsed (ks.drop (A + B)) k]
    constructor
    · exact fun hk => hk.1
    · exact fun hk => ⟨hk, hseg_key k (List.drop_subset _ _ hk)⟩

set_option maxHeartbeats 1000000 in
/-- Counterexample to C1 as stated: fractions `(-0.5, 0.5, 1)` sum to 1
exactly, yet Python slice semantics (`keys[:-1]` for the negative train cut)
put group `"a"`'s record in train *and* in test, so the partition key-sets are
not pairwise disjoint. -/
theorem group_split_negative_fraction_straddle :
    group_split_main (fun _ l => l) "k" 0 (-(1/2)) (1/2) 1
      [some (.obj [("k", .str "a")]), some (.obj [("k", .str "b")])] =
      Except.ok ([.obj [("k", .str "a")]], [],
        [.obj [("k", .str "a")], .obj [("k", .str "b")]]) ∧
    ¬ (∀ k, ¬ (k ∈ ([JVal.obj [("k", .str "a")]]).map (keyOfRecord "k") ∧
        k ∈ ([JVal.obj [("k", .str "a")], JVal.obj [("k", .str "b")]]).map
          (keyOfRecord "k"))) := by
  constructor
  · norm_num +decide [group_split_main, group_split_core, buildGroups, addGroup, keyOfRecord,
      get_path, splitDot, splitDotChars, walkPath, lookupField, pyStr, pyInt,
      pySliceTo, pySlice, pySliceFrom, pyNorm, flattenG, lookupG]
    simp +decide [Int.ceil_neg, List.take_succ_cons, List.drop_succ_cons,
      List.flatMap_cons, List.flatMap_nil]
  · intro hall
    exact hall "a" (by constructor <;> decide)

/-- Witness for the amended C1 at a concrete splitter run. -/
theorem group_split_partitions_groups_witness :
    ∃ tr va ts,
      group_split_main (fun _ l => l) "k" 7 (1/2) (1/2) 0
        [some (.obj [("k", .str "a")]), some (.obj [("k", .str "b")])] =
        Except.ok (tr, va, ts) ∧
      (∀ k, ¬ (k ∈ tr.map (keyOfRecord "k") ∧ k ∈ va.map (keyOfRecord "k"))) := by
  obtain ⟨tr, va, ts, hmain, hd, _⟩ :=
    group_split_partitions_groups (fun _ l => l) (fun s l => List.Perm.refl l) "k" 7
      (1/2) (1/2) 0 [some (.obj [("k", .str "a")]), some (.obj [("k", .str "b")])]
      (by norm_num) (by norm_num) (by norm_num)
      (by rw [show (1:ℚ)/2 + 1/2 + 0 - 1 = 0 by norm_num]; simp)
  exact ⟨tr, va, ts, hmain, hd⟩

set_option maxHeartbeats 2000000 in
/-- Counterexample to C2 as stated: with 10 singleton groups and fractions
`(0.55, 0.25, 0.2)` (summing to 1 exactly), train receives
`⌊10·0.55⌋ = 5` groups and validation the next `⌊10·0.25⌋ = 2`, so train and
validation together hold 7 distinct groups — not the claimed first
`⌊10·(0.55+0.25)⌋ = 8` keys of the shuffled list. -/
theorem group_split_floor_sum_mismatch :
    group_split_main (fun _ l => l) "k" 0 (11/20) (1/4) (1/5)
      [some (.obj [("k", .str "g0")]), some (.obj [("k", .str "g1")]),
       some (.obj [("k", .str "g2")]), some (.obj [("k", .str "g3")]),
       some (.obj [("k", .str "g4")]), some (.obj [("k", .str "g5")]),
       some (.obj [("k", .str "g6")]), some (.obj [("k", .str "g7")]),
       some (.obj [("k", .str "g8")]), some (.obj [("k", .str "g9")])] =
      Except.ok
        ([.obj [("k", .str "g0")], .obj [("k", .str "g1")], .obj [("k", .str "g2")],
          .obj [("k", .str "g3")], .obj [("k", .str "g4")]],
         [.obj [("k", .str "g5")], .obj [("k", .str "g6")]],
         [.obj [("k", .str "g7")], .obj [("k", .str "g8")], .obj [("k", .str "g9")]]) ∧
    (groupKeysOf "k"
      [some (.obj [("k", .str "g0")]), some (.obj [("k", .str "g1")]),
       some (.obj [("k", .str "g2")]), some (.obj [("k", .str "g3")]),
       some (.obj [("k", .str "g4")]), some (.obj [("k", .str "g5")]),
       some (.obj [("k", .str "g6")]), some (.obj [("k", .str "g7")]),
       some (.obj [("k", .str "g8")]), some (.obj [("k", .str "g9")])]).length = 10 ∧
    (([JVal.obj [("k", .str "g0")], .obj [("k", .str "g1")], .obj [("k", .str "g2")],
       .obj [("k", .str "g3")], .obj [("k", .str "g4")]] ++
      [JVal.obj [("k", .str "g5")], .obj [("k", .str "g6")]]).map
        (keyOfRecord "k")).dedup.length = 7 ∧
    (⌊((10 : ℕ) : ℚ) * (11/20 + 1/4)⌋).toNat = 8 := by
  refine ⟨?_, by decide, by decide, ?_⟩
  · norm_num +decide [group_split_main, group_split_core, buildGroups, addGroup, keyOfRecord,
      get_path, splitDot, splitDotChars, walkPath, lookupField, pyStr, pyInt,
      pySliceTo, pySlice, pySliceFrom, pyNorm, flattenG, lookupG]
    simp +decide [List.take_succ_cons, List.drop_succ_cons,
      List.flatMap_cons, List.flatMap_nil]
  · norm_num [pyInt]
    rfl

/-- Witness for the amended C2 at a concrete splitter run. -/
theorem group_split_allocation_counts_witness :
    ∃ tr va ts,
      group_split_main (fun _ l => l) "k" 3 (1/4) (1/4) (1/2)
        [some (.obj [("k", .str "a")]), some (.obj [("k", .str "b")])] =
        Except.ok (tr, va, ts) ∧
      (tr.map (keyOfRecord "k")).dedup.length =
        (⌊((groupKeysOf "k"
            [some (.obj [("k", .str "a")]), some (.obj [("k", .str "b")])]).length : ℚ)
          * (1/4)⌋).toNat := by
  obtain ⟨tr, va, ts, hmain, hc, _⟩ :=
    group_split_allocation_counts (fun _ l => l) (fun s l => List.Perm.refl l) "k" 3
      (1/4) (1/4) (1/2) [some (.obj [("k", .str "a")]), some (.obj [("k", .str "b")])]
      (by norm_num) (by norm_num) (by norm_num) (by norm_num)
  exact ⟨tr, va, ts, hmain, hc⟩
